import Mathlib

set_option maxRecDepth 4000

namespace Sausage

/-- A text line, modelled as its list of characters (Python `str`). -/
abbrev Line := List Char

/-- A document: ordered sequence of lines (`doc_lines` in `sausage.py`). -/
abbrev Doc := List Line

/-- Python `str.lower` (ASCII case folding as used for tag matching). -/
def lowerL (s : Line) : Line := s.map Char.toLower

/-- Python `str.strip`: remove leading and trailing whitespace. -/
def pyStrip (s : Line) : Line :=
  ((s.dropWhile Char.isWhitespace).reverse.dropWhile Char.isWhitespace).reverse

/-- Python `str.startswith pat`: `leadsWith pat s` is true when `s` starts with `pat`. -/
def leadsWith : Line → Line → Bool
  | [], _ => true
  | _ :: _, [] => false
  | a :: as, b :: bs => a == b && leadsWith as bs

/-- Python `str.endswith pat`. -/
def trailsWith (pat s : Line) : Bool :=
  leadsWith pat.reverse s.reverse

/-- Python substring test `needle in hay`. -/
def containsL (needle : Line) : Line → Bool
  | [] => leadsWith needle []
  | c :: rest => leadsWith needle (c :: rest) || containsL needle rest

/-- Python `text.split chr(10)`: split a string on newline characters. -/
def split_nl : Line → List Line
  | [] => [[]]
  | c :: rest =>
    let r := split_nl rest
    if c == '\n' then [] :: r
    else (c :: r.headD []) :: r.tail

/-- The fence delimiter `tbt` of `index_usage_section` (sausage.py line 222). -/
def tbt : Line := "```".data

/-- Fence-marker test of sausage.py line 229: the stripped line starts with the
triple-backtick delimiter and is not a long single-line span ending with it. -/
def is_tbt_marker (line : Line) : Bool :=
  let s := pyStrip line
  leadsWith tbt s && !(decide (6 < s.length) && trailsWith tbt s)

/-- Usage-tag test of sausage.py line 233: case-insensitive substring match of the
usage tag against the stripped line. -/
def is_usage_hit (usage_tag : Line) (line : Line) : Bool :=
  containsL (lowerL usage_tag) (lowerL (pyStrip line))

/-- The `tbt_lines` list built by the enumerate loop of `index_usage_section`. -/
def fence_indices (doc : Doc) : List Nat :=
  (List.range doc.length).filter (fun i => is_tbt_marker (doc.getD i []))

/-- The `usage_lines` list built by the enumerate loop of `index_usage_section`. -/
def usage_indices (usage_tag : Line) (doc : Doc) : List Nat :=
  (List.range doc.length).filter (fun i => is_usage_hit usage_tag (doc.getD i []))

/-- One iteration of the `for x in tbt_lines` loop (sausage.py lines 251 to 255),
with `-1` as the not-found sentinel exactly as in the source. -/
def scan_step (u : Nat) (acc : Int × Int) (x : Nat) : Int × Int :=
  if x ≤ u then ((x : Int), acc.2)
  else if acc.2 < 0 then (acc.1, (x : Int))
  else acc

/-- The whole `for x in tbt_lines` loop starting from `tbt_before = tbt_after = -1`. -/
def scan_tbt (tbt_lines : List Nat) (u : Nat) : Int × Int :=
  tbt_lines.foldl (scan_step u) (-1, -1)

/-- `index_usage_section` (sausage.py lines 215 to 265).  The global warning list is
made explicit: the second component holds the warnings appended by this call. -/
def index_usage_section (doc_lines : Doc) (usage_tag : Line) :
    (Option Nat × Option Nat) × List String :=
  match usage_indices usage_tag doc_lines with
  | [] => ((none, none),
      ["WARNING: No reference to '" ++ String.mk usage_tag ++ "' found in document.",
       "Cannot process help/usage for this program."])
  | [u] =>
    let p := scan_tbt (fence_indices doc_lines) u
    if p.1 < 0 ∨ p.2 < 0 then
      ((none, none),
       ["Could not find surrounding triple-backticks to indicate fenced code block for '"
          ++ String.mk usage_tag ++ "'.",
        "Cannot process help/usage for this program."])
    else ((some p.1.toNat, some p.2.toNat), [])
  | _ :: _ :: _ => ((none, none),
      ["WARNING: More than one reference to '" ++ String.mk usage_tag
         ++ "' found in document.",
       "Cannot process help/usage for this program."])

/-- The `for line in text.split` loop of `get_help_lines` (sausage.py lines 203 to 212):
state is the `usage_found` flag; kept nonempty lines are prefixed with `spaces`. -/
def help_lines_loop (spaces : Line) : Bool → List Line → List Line
  | _, [] => []
  | usage_found, line :: rest =>
    let found := if usage_found then usage_found
                 else containsL "usage:".data (lowerL line)
    if found then
      (if line.isEmpty then line else spaces ++ line) :: help_lines_loop spaces found rest
    else
      help_lines_loop spaces found rest

/-- `get_help_lines` (sausage.py lines 199 to 212), applied to already-captured help
text instead of invoking the external process. -/
def get_help_lines (text : Line) (indent_level : Nat) (usage_only : Bool) : List Line :=
  help_lines_loop (List.replicate indent_level ' ') (!usage_only) (split_nl text)

/-- The splice of sausage.py lines 307 to 309:
`a = doc_lines[: ia + 1]; b = doc_lines[ib:]; doc_lines = a + help_lines + b`. -/
def spliced (doc : Doc) (ia ib : Nat) (help_lines : List Line) : Doc :=
  doc.take (ia + 1) ++ help_lines ++ doc.drop ib

/-- One iteration of the main loop (sausage.py lines 303 to 309) for one command with
the captured help lines supplied directly (simulated identical captured help text). -/
def apply_usage_pass (doc : Doc) (usage_tag : Line) (help_lines : List Line) : Doc :=
  let r := (index_usage_section doc usage_tag).1
  match r.1 with
  | none => doc
  | some ia => spliced doc ia (r.2.getD 0) help_lines

/-- State of one run of `main`: the evolving document, the warning log, and the trace
of commands for which help capture was invoked (`get_help_lines` call sites). -/
structure SessState where
  doc : Doc
  warnings : List String
  captures : List String
deriving DecidableEq

/-- One iteration of the main loop (sausage.py lines 303 to 309).  Help capture is an
external collaborator `help`; a `.error` result models an uncaught exception raised by
`subprocess.run` with `check=True` in `get_help_text`, which propagates out of the
loop, so a step on an already-failed state leaves the failure in place. -/
def session_step (indent_level : Nat) (usage_only : Bool)
    (help : String → Except String Line)
    (st : Except String SessState) (cmd : String × Line) : Except String SessState :=
  match st with
  | .error e => .error e
  | .ok s =>
    let r := index_usage_section s.doc cmd.2
    match r.1.1 with
    | none => .ok ⟨s.doc, s.warnings ++ r.2, s.captures⟩
    | some ia =>
      match help cmd.1 with
      | .error e => .error e
      | .ok text =>
        .ok ⟨spliced s.doc ia (r.1.2.getD 0) (get_help_lines text indent_level usage_only),
             s.warnings ++ r.2, s.captures ++ [cmd.1]⟩

/-- The whole `for run_cmd, usage_tag in opts.programs` loop of `main`. -/
def session_run (indent_level : Nat) (usage_only : Bool)
    (help : String → Except String Line) (doc : Doc)
    (cmds : List (String × Line)) : Except String SessState :=
  cmds.foldl (session_step indent_level usage_only help) (.ok ⟨doc, [], []⟩)

/-- The output decision of `main` (sausage.py lines 314 to 317): `.ok none` when the
document is unchanged (no file written), `.ok (some d)` when a modified copy with
lines `d` is written, `.error e` when the run aborted on an uncaught exception. -/
def main_output (indent_level : Nat) (usage_only : Bool)
    (help : String → Except String Line) (doc : Doc)
    (cmds : List (String × Line)) : Except String (Option Doc) :=
  match session_run indent_level usage_only help doc cmds with
  | .error e => .error e
  | .ok s => .ok (if s.doc = doc then none else some s.doc)

/-- Modelled from the spec, section 4.4: the expected capture trace, invoking help
capture once per command exactly when that command's section is confirmed resolvable
against the current document state, and never for an unresolved command. -/
def capture_trace (indent_level : Nat) (usage_only : Bool)
    (oracle : String → Line) : Doc → List (String × Line) → List String
  | _, [] => []
  | doc, (c, tag) :: rest =>
    match (index_usage_section doc tag).1.1 with
    | none => capture_trace indent_level usage_only oracle doc rest
    | some ia =>
      c :: capture_trace indent_level usage_only oracle
        (spliced doc ia ((index_usage_section doc tag).1.2.getD 0)
          (get_help_lines (oracle c) indent_level usage_only)) rest

/-! Lemma layer: characterization of the scan loop, of the index lists, and of
`index_usage_section`. -/

/-- The first component of the scan loop depends only on its own accumulator slot. -/
def before_fold (u : Nat) (a : Int) (L : List Nat) : Int :=
  L.foldl (fun (a : Int) (x : Nat) => if x ≤ u then (x : Int) else a) a

/-- The second component of the scan loop depends only on its own accumulator slot. -/
def after_fold (u : Nat) (a : Int) (L : List Nat) : Int :=
  L.foldl (fun (a : Int) (x : Nat) => if x ≤ u then a else if a < 0 then (x : Int) else a) a

theorem scan_fold_fst (u : Nat) :
    ∀ (L : List Nat) (acc : Int × Int),
      (L.foldl (scan_step u) acc).1 = before_fold u acc.1 L
  | [], _ => rfl
  | x :: L, acc => by
    simp only [List.foldl_cons, before_fold]
    rw [scan_fold_fst u L]
    unfold scan_step before_fold
    by_cases h : x ≤ u
    · simp [h]
    · by_cases h2 : acc.2 < 0 <;> simp [h, h2]

theorem scan_fold_snd (u : Nat) :
    ∀ (L : List Nat) (acc : Int × Int),
      (L.foldl (scan_step u) acc).2 = after_fold u acc.2 L
  | [], _ => rfl
  | x :: L, acc => by
    simp only [List.foldl_cons, after_fold]
    rw [scan_fold_snd u L]
    unfold scan_step after_fold
    by_cases h : x ≤ u
    · simp [h]
    · by_cases h2 : acc.2 < 0 <;> simp [h, h2, not_lt.mp]

theorem before_fold_of_unsat (u : Nat) :
    ∀ (L : List Nat) (a : Int), (∀ x ∈ L, u < x) → before_fold u a L = a
  | [], _, _ => rfl
  | x :: L, a, h => by
    have hx : u < x := h x (List.mem_cons_self x L)
    simp only [before_fold, List.foldl_cons, if_neg (not_le.mpr hx)]
    exact before_fold_of_unsat u L a fun y hy => h y (List.mem_cons_of_mem x hy)

theorem before_fold_of_max (u : Nat) :
    ∀ (L : List Nat) (a : Int) (b : Nat), L.Pairwise (· < ·) → b ∈ L → b ≤ u →
      (∀ x ∈ L, x ≤ u → x ≤ b) → before_fold u a L = (b : Int)
  | [], _, b, _, hb, _, _ => absurd hb (List.not_mem_nil b)
  | x :: L, a, b, hs, hb, hbu, hmax => by
    rcases List.mem_cons.mp hb with hbx | hbL
    · subst hbx
      simp only [before_fold, List.foldl_cons, if_pos hbu]
      refine before_fold_of_unsat u L (b : Int) fun y hy => ?_
      by_contra hyu
      have h1 : y ≤ b := hmax y (List.mem_cons_of_mem b hy) (not_lt.mp hyu)
      have h2 : b < y := (List.pairwise_cons.mp hs).1 y hy
      omega
    · have hxb : x < b := (List.pairwise_cons.mp hs).1 b hbL
      have hxu : x ≤ u := le_of_lt (lt_of_lt_of_le hxb hbu)
      simp only [before_fold, List.foldl_cons, if_pos hxu]
      exact before_fold_of_max u L (x : Int) b (List.pairwise_cons.mp hs).2 hbL hbu
        fun y hy hyu => hmax y (List.mem_cons_of_mem x hy) hyu

theorem after_fold_frozen (u : Nat) :
    ∀ (L : List Nat) (a : Int), 0 ≤ a → after_fold u a L = a
  | [], _, _ => rfl
  | x :: L, a, ha => by
    simp only [after_fold, List.foldl_cons, if_neg (not_lt.mpr ha)]
    by_cases h : x ≤ u <;> simp only [if_pos, if_neg, h, ite_true, ite_false] <;>
      exact after_fold_frozen u L a ha

theorem after_fold_of_unsat (u : Nat) :
    ∀ (L : List Nat) (a : Int), (∀ x ∈ L, x ≤ u) → after_fold u a L = a
  | [], _, _ => rfl
  | x :: L, a, h => by
    have hx : x ≤ u := h x (List.mem_cons_self x L)
    simp only [after_fold, List.foldl_cons, if_pos hx]
    exact after_fold_of_unsat u L a fun y hy => h y (List.mem_cons_of_mem x hy)

theorem after_fold_of_min (u : Nat) :
    ∀ (L : List Nat) (c : Nat), L.Pairwise (· < ·) → c ∈ L → u < c →
      (∀ x ∈ L, u < x → c ≤ x) → after_fold u (-1) L = (c : Int)
  | [], c, _, hc, _, _ => absurd hc (List.not_mem_nil c)
  | x :: L, c, hs, hc, hcu, hmin => by
    by_cases hx : x ≤ u
    · simp only [after_fold, List.foldl_cons, if_pos hx]
      rcases List.mem_cons.mp hc with hcx | hcL
      · subst hcx; omega
      · exact after_fold_of_min u L c (List.pairwise_cons.mp hs).2 hcL hcu
          fun y hy hyu => hmin y (List.mem_cons_of_mem x hy) hyu
    · have hux : u < x := not_le.mp hx
      have hcx : c = x := by
        rcases List.mem_cons.mp hc with hcx | hcL
        · exact hcx
        · have h1 : x < c := (List.pairwise_cons.mp hs).1 c hcL
          have h2 : c ≤ x := hmin x (List.mem_cons_self x L) hux
          omega
      subst hcx
      simp only [after_fold, List.foldl_cons, if_neg hx]
      norm_num
      exact after_fold_frozen u L (c : Int) (Int.natCast_nonneg c)

theorem exists_max_le :
    ∀ (L : List Nat), L.Pairwise (· < ·) → ∀ (u x : Nat), x ∈ L → x ≤ u →
      ∃ b ∈ L, b ≤ u ∧ ∀ y ∈ L, y ≤ u → y ≤ b
  | [], _, _, x, hx, _ => absurd hx (List.not_mem_nil x)
  | z :: L, hs, u, x, hx, hxu => by
    by_cases hL : ∃ y ∈ L, y ≤ u
    · obtain ⟨y0, hy0, hy0u⟩ := hL
      obtain ⟨b, hbL, hbu, hmax⟩ :=
        exists_max_le L (List.pairwise_cons.mp hs).2 u y0 hy0 hy0u
      refine ⟨b, List.mem_cons_of_mem z hbL, hbu, fun y hy hyu => ?_⟩
      rcases List.mem_cons.mp hy with hyz | hyL
      · subst hyz; exact le_of_lt ((List.pairwise_cons.mp hs).1 b hbL)
      · exact hmax y hyL hyu
    · have hxz : x = z := by
        rcases List.mem_cons.mp hx with h | h
        · exact h
        · exact absurd ⟨x, h, hxu⟩ hL
      subst hxz
      refine ⟨x, List.mem_cons_self x L, hxu, fun y hy hyu => ?_⟩
      rcases List.mem_cons.mp hy with hyz | hyL
      · omega
      · exact absurd ⟨y, hyL, hyu⟩ hL

theorem exists_min_gt :
    ∀ (L : List Nat), L.Pairwise (· < ·) → ∀ (u x : Nat), x ∈ L → u < x →
      ∃ c ∈ L, u < c ∧ ∀ y ∈ L, u < y → c ≤ y
  | [], _, _, x, hx, _ => absurd hx (List.not_mem_nil x)
  | z :: L, hs, u, x, hx, hxu => by
    by_cases hz : u < z
    · refine ⟨z, List.mem_cons_self z L, hz, fun y hy _ => ?_⟩
      rcases List.mem_cons.mp hy with hyz | hyL
      · omega
      · exact le_of_lt ((List.pairwise_cons.mp hs).1 y hyL)
    · have hxL : x ∈ L := by
        rcases List.mem_cons.mp hx with h | h
        · omega
        · exact h
      obtain ⟨c, hcL, hcu, hmin⟩ :=
        exists_min_gt L (List.pairwise_cons.mp hs).2 u x hxL hxu
      refine ⟨c, List.mem_cons_of_mem z hcL, hcu, fun y hy hyu => ?_⟩
      rcases List.mem_cons.mp hy with hyz | hyL
      · omega
      · exact hmin y hyL hyu

theorem fence_indices_sorted (doc : Doc) : (fence_indices doc).Pairwise (· < ·) :=
  (List.pairwise_lt_range doc.length).filter _

theorem mem_fence_indices (doc : Doc) (i : Nat) :
    i ∈ fence_indices doc ↔ i < doc.length ∧ is_tbt_marker (doc.getD i []) = true := by
  simp [fence_indices, List.mem_filter, List.mem_range]

theorem mem_usage_indices (tag : Line) (doc : Doc) (i : Nat) :
    i ∈ usage_indices tag doc ↔ i < doc.length ∧ is_usage_hit tag (doc.getD i []) = true := by
  simp [usage_indices, List.mem_filter, List.mem_range]

theorem scan_tbt_eq_of (L : List Nat) (u b a : Nat) (hs : L.Pairwise (· < ·))
    (hb : b ∈ L) (hbu : b ≤ u) (hbmax : ∀ x ∈ L, x ≤ u → x ≤ b)
    (ha : a ∈ L) (hau : u < a) (hamin : ∀ x ∈ L, u < x → a ≤ x) :
    scan_tbt L u = ((b : Int), (a : Int)) := by
  have h1 : (scan_tbt L u).1 = (b : Int) := by
    rw [scan_tbt, scan_fold_fst]
    exact before_fold_of_max u L (-1) b hs hb hbu hbmax
  have h2 : (scan_tbt L u).2 = (a : Int) := by
    rw [scan_tbt, scan_fold_snd]
    exact after_fold_of_min u L a hs ha hau hamin
  exact Prod.ext h1 h2

theorem scan_tbt_fst_neg (L : List Nat) (u : Nat) (h : ∀ x ∈ L, u < x) :
    (scan_tbt L u).1 = -1 := by
  rw [scan_tbt, scan_fold_fst]
  exact before_fold_of_unsat u L (-1) h

theorem scan_tbt_snd_neg (L : List Nat) (u : Nat) (h : ∀ x ∈ L, x ≤ u) :
    (scan_tbt L u).2 = -1 := by
  rw [scan_tbt, scan_fold_snd]
  exact after_fold_of_unsat u L (-1) h

/-- Complete case analysis of `index_usage_section`: either it succeeds with the
enclosing pair (greatest fence at or before the single occurrence, least fence
strictly after it), or it returns the `(none, none)` sentinel and the occurrence
count is not one or an enclosing fence is missing on one side. -/
theorem index_spec (doc : Doc) (tag : Line) :
    (∃ u b a, usage_indices tag doc = [u] ∧
       (index_usage_section doc tag).1 = (some b, some a) ∧
       b ∈ fence_indices doc ∧ a ∈ fence_indices doc ∧ b ≤ u ∧ u < a ∧
       (∀ f ∈ fence_indices doc, f ≤ u → f ≤ b) ∧
       (∀ f ∈ fence_indices doc, u < f → a ≤ f)) ∨
    ((index_usage_section doc tag).1 = (none, none) ∧
       (usage_indices tag doc = [] ∨
        (∃ u v rest, usage_indices tag doc = u :: v :: rest) ∨
        (∃ u, usage_indices tag doc = [u] ∧
          ((∀ f ∈ fence_indices doc, u < f) ∨ (∀ f ∈ fence_indices doc, f ≤ u))))) := by
  rcases hU : usage_indices tag doc with _ | ⟨u, _ | ⟨v, rest⟩⟩
  · right
    refine ⟨?_, Or.inl rfl⟩
    simp [index_usage_section, hU]
  · by_cases hb : ∃ f ∈ fence_indices doc, f ≤ u
    · by_cases ha : ∃ f ∈ fence_indices doc, u < f
      · obtain ⟨f1, hf1, hf1u⟩ := hb
        obtain ⟨b, hbF, hbu, hbmax⟩ :=
          exists_max_le _ (fence_indices_sorted doc) u f1 hf1 hf1u
        obtain ⟨f2, hf2, hf2u⟩ := ha
        obtain ⟨a, haF, hau, hamin⟩ :=
          exists_min_gt _ (fence_indices_sorted doc) u f2 hf2 hf2u
        left
        refine ⟨u, b, a, rfl, ?_, hbF, haF, hbu, hau, hbmax, hamin⟩
        have hscan := scan_tbt_eq_of (fence_indices doc) u b a
          (fence_indices_sorted doc) hbF hbu hbmax haF hau hamin
        have hge : ¬((b : Int) < 0 ∨ (a : Int) < 0) := by omega
        simp [index_usage_section, hU, hscan, hge]
      · right
        push_neg at ha
        have hsnd : (scan_tbt (fence_indices doc) u).2 = -1 :=
          scan_tbt_snd_neg _ u ha
        refine ⟨?_, Or.inr (Or.inr ⟨u, rfl, Or.inr ha⟩)⟩
        simp [index_usage_section, hU, hsnd]
    · right
      push_neg at hb
      have hfst : (scan_tbt (fence_indices doc) u).1 = -1 :=
        scan_tbt_fst_neg _ u hb
      refine ⟨?_, Or.inr (Or.inr ⟨u, rfl, Or.inl hb⟩)⟩
      simp [index_usage_section, hU, hfst]
  · right
    refine ⟨?_, Or.inr (Or.inl ⟨u, v, rest, rfl⟩)⟩
    simp [index_usage_section, hU]

/-- A successful resolution carries the full enclosing-pair facts. -/
theorem resolved_props (doc : Doc) (tag : Line) (ia ib : Nat)
    (h : (index_usage_section doc tag).1 = (some ia, some ib)) :
    ∃ u, usage_indices tag doc = [u] ∧
      ia ∈ fence_indices doc ∧ ib ∈ fence_indices doc ∧ ia ≤ u ∧ u < ib ∧
      (∀ f ∈ fence_indices doc, f ≤ u → f ≤ ia) ∧
      (∀ f ∈ fence_indices doc, u < f → ib ≤ f) := by
  rcases index_spec doc tag with
    ⟨u, b, a, hU, heq, hbF, haF, hbu, hau, hbmax, hamin⟩ | ⟨heq, _⟩
  · have hpair : (some ia, some ib) = ((some b : Option Nat), (some a : Option Nat)) :=
      h.symm.trans heq
    simp only [Prod.mk.injEq, Option.some.injEq] at hpair
    obtain ⟨hb, ha⟩ := hpair
    subst hb; subst ha
    exact ⟨u, hU, hbF, haF, hbu, hau, hbmax, hamin⟩
  · exact absurd (h.symm.trans heq) (by simp)

theorem fence_lt_length (doc : Doc) (i : Nat) (h : i ∈ fence_indices doc) :
    i < doc.length :=
  ((mem_fence_indices doc i).mp h).1

theorem spliced_length (doc : Doc) (ia ib : Nat) (hl : List Line)
    (hia : ia < doc.length) :
    (spliced doc ia ib hl).length = (ia + 1) + hl.length + (doc.length - ib) := by
  simp only [spliced, List.length_append, List.length_take, List.length_drop]
  omega

theorem spliced_getD_low (doc : Doc) (ia ib : Nat) (hl : List Line) (i : Nat)
    (hia : ia < doc.length) (hi : i ≤ ia) :
    (spliced doc ia ib hl).getD i [] = doc.getD i [] := by
  have h1 : (doc.take (ia + 1)).length = ia + 1 := List.length_take_of_le (by omega)
  rw [spliced, List.append_assoc, List.getD_eq_getElem?_getD, List.getD_eq_getElem?_getD,
    List.getElem?_append_left (by omega), List.getElem?_take]
  simp [Nat.lt_succ_of_le hi]

theorem spliced_getD_mid (doc : Doc) (ia ib : Nat) (hl : List Line) (j : Nat)
    (hia : ia < doc.length) (hj : j < hl.length) :
    (spliced doc ia ib hl).getD (ia + 1 + j) [] = hl.getD j [] := by
  have h1 : (doc.take (ia + 1)).length = ia + 1 := List.length_take_of_le (by omega)
  rw [spliced, List.append_assoc, List.getD_eq_getElem?_getD, List.getD_eq_getElem?_getD,
    List.getElem?_append_right (by omega), h1]
  have h2 : ia + 1 + j - (ia + 1) = j := by omega
  rw [h2, List.getElem?_append_left hj]

theorem spliced_getD_high (doc : Doc) (ia ib : Nat) (hl : List Line) (k : Nat)
    (hia : ia < doc.length) :
    (spliced doc ia ib hl).getD (ia + 1 + hl.length + k) [] = doc.getD (ib + k) [] := by
  have h1 : (doc.take (ia + 1)).length = ia + 1 := List.length_take_of_le (by omega)
  rw [spliced, List.append_assoc, List.getD_eq_getElem?_getD, List.getD_eq_getElem?_getD,
    List.getElem?_append_right (by omega), h1]
  have h2 : ia + 1 + hl.length + k - (ia + 1) = hl.length + k := by omega
  rw [h2, List.getElem?_append_right (by omega)]
  have h3 : hl.length + k - hl.length = k := by omega
  rw [h3, List.getElem?_drop]

theorem spliced_take (doc : Doc) (ia ib : Nat) (hl : List Line)
    (hia : ia < doc.length) :
    (spliced doc ia ib hl).take (ia + 1) = doc.take (ia + 1) := by
  have h1 : (doc.take (ia + 1)).length = ia + 1 := List.length_take_of_le (by omega)
  have h2 := List.take_left (doc.take (ia + 1)) (hl ++ doc.drop ib)
  rw [h1] at h2
  rw [spliced, List.append_assoc]
  exact h2

theorem spliced_drop (doc : Doc) (ia ib : Nat) (hl : List Line)
    (hia : ia < doc.length) :
    (spliced doc ia ib hl).drop (ia + 1 + hl.length) = doc.drop ib := by
  have h1 : (doc.take (ia + 1) ++ hl).length = ia + 1 + hl.length := by
    rw [List.length_append, List.length_take_of_le (by omega)]
  have h2 := List.drop_left (doc.take (ia + 1) ++ hl) (doc.drop ib)
  rw [h1] at h2
  rw [spliced]
  exact h2

/-! Claim theorems. -/

/-- C5: a line index is recorded by the fence scanner exactly when the line's
whitespace-trimmed form starts with the three-backtick delimiter and it is not the
case that the trimmed form both has length strictly greater than 6 and ends with
the three-backtick delimiter. -/
theorem c5_fence_candidate_rule (doc : Doc) (i : Nat) :
    i ∈ fence_indices doc ↔
      i < doc.length ∧
      leadsWith tbt (pyStrip (doc.getD i [])) = true ∧
      ¬(6 < (pyStrip (doc.getD i [])).length ∧
        trailsWith tbt (pyStrip (doc.getD i [])) = true) := by
  rw [mem_fence_indices]
  have hiff : ∀ line : Line, is_tbt_marker line = true ↔
      (leadsWith tbt (pyStrip line) = true ∧
        ¬(6 < (pyStrip line).length ∧ trailsWith tbt (pyStrip line) = true)) := by
    intro line
    cases hA : leadsWith tbt (pyStrip line) <;>
      cases hC : trailsWith tbt (pyStrip line) <;>
      by_cases hP : 6 < (pyStrip line).length <;>
      simp [is_tbt_marker, hA, hC, hP]
  rw [hiff]

/-- C10: for every document and usage tag, `index_usage_section` returns either the
`(None, None)` sentinel pair or a pair of indices `(before, after)` with
`before < after < document length`; it never returns a pair with exactly one `None`,
so the caller's check of the first component alone is sound. -/
theorem c10_pair_invariant (doc : Doc) (tag : Line) :
    (index_usage_section doc tag).1 = (none, none) ∨
    ∃ b a, (index_usage_section doc tag).1 = (some b, some a) ∧
      b < a ∧ a < doc.length := by
  rcases index_spec doc tag with
    ⟨u, b, a, _, heq, _, haF, hbu, hau, _, _⟩ | ⟨heq, _⟩
  · exact Or.inr ⟨b, a, heq, lt_of_le_of_lt hbu hau, fence_lt_length doc a haF⟩
  · exact Or.inl heq

/-- C1: for a document and usage tag with exactly one usage occurrence at index `u`,
the resolver returns `(before, after)` where `before` is the greatest fence-marker
index at or before `u` and `after` is the least fence-marker index strictly after
`u` (so `before ≤ u < after` and `before < after`); if either side has no such
fence marker the result is the unresolved sentinel. -/
theorem c1_section_resolver (doc : Doc) (tag : Line) (u : Nat)
    (h : usage_indices tag doc = [u]) :
    (∃ b a, (index_usage_section doc tag).1 = (some b, some a) ∧
       b ∈ fence_indices doc ∧ a ∈ fence_indices doc ∧
       b ≤ u ∧ u < a ∧ b < a ∧
       (∀ f ∈ fence_indices doc, f ≤ u → f ≤ b) ∧
       (∀ f ∈ fence_indices doc, u < f → a ≤ f)) ∨
    ((index_usage_section doc tag).1 = (none, none) ∧
       ((∀ f ∈ fence_indices doc, u < f) ∨ (∀ f ∈ fence_indices doc, f ≤ u))) := by
  rcases index_spec doc tag with
    ⟨u', b, a, hU, heq, hbF, haF, hbu, hau, hbmax, hamin⟩ | ⟨heq, hc⟩
  · have huu : u' = u := by
      rw [h] at hU
      simpa using hU.symm
    subst huu
    exact Or.inl ⟨b, a, heq, hbF, haF, hbu, hau, lt_of_le_of_lt hbu hau, hbmax, hamin⟩
  · rcases hc with hnil | ⟨u1, v, rest, hcons⟩ | ⟨u', hU, hside⟩
    · rw [h] at hnil
      exact absurd hnil (by simp)
    · rw [h] at hcons
      simp at hcons
    · have huu : u' = u := by
        rw [h] at hU
        simpa using hU.symm
      subst huu
      exact Or.inr ⟨heq, hside⟩

/-- Witness for C1 at a concrete three-line document whose single usage occurrence
sits between the two fence lines. -/
theorem c1_section_resolver_witness :
    usage_indices "usage: foo".data ["```".data, "usage: foo".data, "```".data] = [1] ∧
    ((∃ b a,
       (index_usage_section ["```".data, "usage: foo".data, "```".data]
          "usage: foo".data).1 = (some b, some a) ∧
       b ∈ fence_indices ["```".data, "usage: foo".data, "```".data] ∧
       a ∈ fence_indices ["```".data, "usage: foo".data, "```".data] ∧
       b ≤ 1 ∧ 1 < a ∧ b < a ∧
       (∀ f ∈ fence_indices ["```".data, "usage: foo".data, "```".data],
          f ≤ 1 → f ≤ b) ∧
       (∀ f ∈ fence_indices ["```".data, "usage: foo".data, "```".data],
          1 < f → a ≤ f)) ∨
     ((index_usage_section ["```".data, "usage: foo".data, "```".data]
          "usage: foo".data).1 = (none, none) ∧
       ((∀ f ∈ fence_indices ["```".data, "usage: foo".data, "```".data], 1 < f) ∨
        (∀ f ∈ fence_indices ["```".data, "usage: foo".data, "```".data], f ≤ 1)))) :=
  ⟨by decide, c1_section_resolver _ _ 1 (by decide)⟩

/-- C3: when a command's usage tag has zero occurrences or more than one occurrence,
resolution returns the unresolved sentinel, warning entries are appended, the
document is left unchanged by that command, help capture is not invoked, and the
session continues with the remaining commands instead of aborting. -/
theorem c3_unresolved_skip (doc : Doc) (tag : Line)
    (h : (usage_indices tag doc).length ≠ 1) :
    (index_usage_section doc tag).1 = (none, none) ∧
    (index_usage_section doc tag).2 ≠ [] ∧
    ∀ (n : Nat) (uo : Bool) (help : String → Except String Line)
      (c : String) (rest : List (String × Line)),
      session_run n uo help doc ((c, tag) :: rest) =
        rest.foldl (session_step n uo help)
          (.ok ⟨doc, (index_usage_section doc tag).2, []⟩) := by
  have hpair : (index_usage_section doc tag).1 = (none, none) := by
    rcases index_spec doc tag with ⟨u, b, a, hU, _, _⟩ | ⟨heq, _⟩
    · rw [hU] at h
      simp at h
    · exact heq
  have hwarn : (index_usage_section doc tag).2 ≠ [] := by
    rcases hU : usage_indices tag doc with _ | ⟨x, _ | ⟨y, r⟩⟩
    · simp [index_usage_section, hU]
    · rw [hU] at h
      simp at h
    · simp [index_usage_section, hU]
  refine ⟨hpair, hwarn, fun n uo help c rest => ?_⟩
  rw [session_run, List.foldl_cons]
  have hfst : (index_usage_section doc tag).1.1 = none := by rw [hpair]
  have hstep : session_step n uo help (.ok ⟨doc, [], []⟩) (c, tag) =
      .ok ⟨doc, (index_usage_section doc tag).2, []⟩ := by
    simp [session_step, hfst]
  rw [hstep]

/-- Witness for C3 at a concrete document with zero occurrences of the tag. -/
theorem c3_unresolved_skip_witness :
    (index_usage_section ["hello".data] "usage: foo".data).1 = (none, none) ∧
    (index_usage_section ["hello".data] "usage: foo".data).2 ≠ [] ∧
    session_run 0 false (fun _ => .ok []) ["hello".data]
        [("foo", "usage: foo".data)] =
      .ok ⟨["hello".data], (index_usage_section ["hello".data] "usage: foo".data).2, []⟩ :=
  ⟨(c3_unresolved_skip _ _ (by decide)).1,
   (c3_unresolved_skip _ _ (by decide)).2.1,
   (c3_unresolved_skip _ _ (by decide)).2.2 0 false (fun _ => .ok []) "foo" []⟩

/-- C2: for a validated range `(before, after)` the new document is
`document[0..=before] ++ injected_lines ++ document[after..]`: only lines strictly
between `before` and `after` are replaced, and the two boundary fence lines and
every line outside the range are preserved verbatim at their shifted positions. -/
theorem c2_splice_frame (doc : Doc) (tag : Line) (ia ib : Nat) (hl : List Line)
    (h : (index_usage_section doc tag).1 = (some ia, some ib)) :
    spliced doc ia ib hl = doc.take (ia + 1) ++ hl ++ doc.drop ib ∧
    (spliced doc ia ib hl).length = (ia + 1) + hl.length + (doc.length - ib) ∧
    (∀ i, i ≤ ia → (spliced doc ia ib hl).getD i [] = doc.getD i []) ∧
    (∀ j, j < hl.length →
      (spliced doc ia ib hl).getD (ia + 1 + j) [] = hl.getD j []) ∧
    (∀ k, (spliced doc ia ib hl).getD (ia + 1 + hl.length + k) [] = doc.getD (ib + k) []) ∧
    (spliced doc ia ib hl).getD ia [] = doc.getD ia [] ∧
    (spliced doc ia ib hl).getD (ia + 1 + hl.length) [] = doc.getD ib [] := by
  obtain ⟨u, hU, hiaF, hibF, hiau, huib, hmax, hmin⟩ := resolved_props doc tag ia ib h
  have hialen : ia < doc.length := fence_lt_length doc ia hiaF
  have hb0 := spliced_getD_high doc ia ib hl 0 hialen
  rw [Nat.add_zero] at hb0
  exact ⟨rfl, spliced_length doc ia ib hl hialen,
    fun i hi => spliced_getD_low doc ia ib hl i hialen hi,
    fun j hj => spliced_getD_mid doc ia ib hl j hialen hj,
    fun k => spliced_getD_high doc ia ib hl k hialen,
    spliced_getD_low doc ia ib hl ia hialen (le_refl ia), hb0⟩

/-- Witness for C2 at a concrete four-line document and injected line. -/
theorem c2_splice_frame_witness :
    (index_usage_section ["# T".data, "```".data, "usage: foo".data, "```".data]
        "usage: foo".data).1 = (some 1, some 3) ∧
    (spliced ["# T".data, "```".data, "usage: foo".data, "```".data] 1 3
        ["usage: foo [-h]".data] =
      (["# T".data, "```".data, "usage: foo".data, "```".data].take 2 ++
        ["usage: foo [-h]".data] ++
        ["# T".data, "```".data, "usage: foo".data, "```".data].drop 3) ∧
     (spliced ["# T".data, "```".data, "usage: foo".data, "```".data] 1 3
        ["usage: foo [-h]".data]).length = 2 + 1 + (4 - 3) ∧
     (∀ i, i ≤ 1 →
       (spliced ["# T".data, "```".data, "usage: foo".data, "```".data] 1 3
          ["usage: foo [-h]".data]).getD i [] =
        (["# T".data, "```".data, "usage: foo".data, "```".data] : Doc).getD i []) ∧
     (∀ j, j < ([("usage: foo [-h]".data : Line)] : List Line).length →
       (spliced ["# T".data, "```".data, "usage: foo".data, "```".data] 1 3
          ["usage: foo [-h]".data]).getD (1 + 1 + j) [] =
        ([("usage: foo [-h]".data : Line)] : List Line).getD j []) ∧
     (∀ k,
       (spliced ["# T".data, "```".data, "usage: foo".data, "```".data] 1 3
          ["usage: foo [-h]".data]).getD (1 + 1 + 1 + k) [] =
        (["# T".data, "```".data, "usage: foo".data, "```".data] : Doc).getD (3 + k) []) ∧
     (spliced ["# T".data, "```".data, "usage: foo".data, "```".data] 1 3
        ["usage: foo [-h]".data]).getD 1 [] =
       (["# T".data, "```".data, "usage: foo".data, "```".data] : Doc).getD 1 [] ∧
     (spliced ["# T".data, "```".data, "usage: foo".data, "```".data] 1 3
        ["usage: foo [-h]".data]).getD (1 + 1 + 1) [] =
       (["# T".data, "```".data, "usage: foo".data, "```".data] : Doc).getD 3 []) :=
  ⟨by decide,
   by
    have h := c2_splice_frame ["# T".data, "```".data, "usage: foo".data, "```".data]
      "usage: foo".data 1 3 ["usage: foo [-h]".data] (by decide)
    exact h⟩

/-- Per-line emission of `get_help_lines`: blank lines unchanged, other lines
prefixed with the indent string. -/
def pad_line (spaces : Line) (l : Line) : Line :=
  if l.isEmpty then l else spaces ++ l

theorem help_loop_true_cons (spaces x : Line) (ls : List Line) :
    help_lines_loop spaces true (x :: ls) =
      (if x.isEmpty then x else spaces ++ x) :: help_lines_loop spaces true ls := rfl

theorem help_loop_false_cons (spaces x : Line) (ls : List Line) :
    help_lines_loop spaces false (x :: ls) =
      if containsL "usage:".data (lowerL x) then
        (if x.isEmpty then x else spaces ++ x) ::
          help_lines_loop spaces (containsL "usage:".data (lowerL x)) ls
      else help_lines_loop spaces (containsL "usage:".data (lowerL x)) ls := rfl

theorem help_loop_found (spaces : Line) :
    ∀ ls : List Line, help_lines_loop spaces true ls = ls.map (pad_line spaces)
  | [] => rfl
  | x :: ls => by
    rw [help_loop_true_cons, help_loop_found spaces ls, List.map_cons, pad_line]

theorem help_loop_scanning (spaces : Line) :
    ∀ ls : List Line,
      help_lines_loop spaces false ls =
        (ls.dropWhile (fun l => !containsL "usage:".data (lowerL l))).map
          (pad_line spaces)
  | [] => rfl
  | x :: ls => by
    rw [help_loop_false_cons, List.dropWhile_cons]
    cases hc : containsL "usage:".data (lowerL x) with
    | false => simpa [hc] using help_loop_scanning spaces ls
    | true => simp [hc, help_loop_found spaces ls, pad_line]

/-- Every line emitted by the help-lines loop is either an empty source line kept
unchanged or a nonempty source line with the indent string prepended. -/
theorem help_loop_shape (spaces : Line) :
    ∀ (found : Bool) (ls : List Line) (l : Line), l ∈ help_lines_loop spaces found ls →
      (l = [] ∧ [] ∈ ls) ∨ ∃ src, src ∈ ls ∧ src ≠ [] ∧ l = spaces ++ src := by
  intro found ls
  induction ls generalizing found with
  | nil =>
    intro l h
    cases found <;> exact absurd h (List.not_mem_nil l)
  | cons x ls ih =>
    intro l h
    have emit : l = (if x.isEmpty then x else spaces ++ x) →
        (l = [] ∧ [] ∈ x :: ls) ∨
          ∃ src, src ∈ x :: ls ∧ src ≠ [] ∧ l = spaces ++ src := by
      intro hl
      by_cases hx : x.isEmpty = true
      · left
        have hxe : x = [] := by
          cases x
          · rfl
          · simp [List.isEmpty] at hx
        rw [if_pos hx, hxe] at hl
        exact ⟨hl, by rw [hxe]; exact List.mem_cons_self [] ls⟩
      · right
        rw [if_neg hx] at hl
        refine ⟨x, List.mem_cons_self x ls, ?_, hl⟩
        intro he
        rw [he] at hx
        exact hx rfl
    have lift : l ∈ help_lines_loop spaces true ls →
        (l = [] ∧ [] ∈ x :: ls) ∨
          ∃ src, src ∈ x :: ls ∧ src ≠ [] ∧ l = spaces ++ src := by
      intro hl
      rcases ih true l hl with ⟨h1, h2⟩ | ⟨src, h1, h2, h3⟩
      · exact Or.inl ⟨h1, List.mem_cons_of_mem x h2⟩
      · exact Or.inr ⟨src, List.mem_cons_of_mem x h1, h2, h3⟩
    cases found with
    | true =>
      rw [help_loop_true_cons] at h
      rcases List.mem_cons.mp h with hl | hl
      · exact emit hl
      · exact lift hl
    | false =>
      rw [help_loop_false_cons] at h
      cases hc : containsL "usage:".data (lowerL x) with
      | true =>
        rw [hc, if_pos rfl] at h
        rcases List.mem_cons.mp h with hl | hl
        · exact emit hl
        · exact lift hl
      | false =>
        rw [hc, if_neg (by simp)] at h
        rcases ih false l h with ⟨h1, h2⟩ | ⟨src, h1, h2, h3⟩
        · exact Or.inl ⟨h1, List.mem_cons_of_mem x h2⟩
        · exact Or.inr ⟨src, List.mem_cons_of_mem x h1, h2, h3⟩

/-- C6: with `usage_only` set, the injector drops all lines preceding the first line
whose lowercase form contains the usage marker, keeps that line and every following
line (each run through the indent padding), and yields the empty sequence when no
line contains the marker. -/
theorem c6_usage_only_filter (text : Line) (n : Nat) :
    get_help_lines text n true =
      ((split_nl text).dropWhile
          (fun l => !containsL "usage:".data (lowerL l))).map
        (pad_line (List.replicate n ' ')) ∧
    ((∀ l ∈ split_nl text, containsL "usage:".data (lowerL l) = false) →
      get_help_lines text n true = []) := by
  have h1 : get_help_lines text n true =
      ((split_nl text).dropWhile
          (fun l => !containsL "usage:".data (lowerL l))).map
        (pad_line (List.replicate n ' ')) := by
    rw [get_help_lines]
    exact help_loop_scanning _ _
  refine ⟨h1, fun hall => ?_⟩
  rw [h1]
  have h2 : (split_nl text).dropWhile
      (fun l => !containsL "usage:".data (lowerL l)) = [] := by
    rw [List.dropWhile_eq_nil_iff]
    intro x hx
    simp [hall x hx]
  rw [h2, List.map_nil]

/-- Witness for C6: the spec's worked example, plus the degenerate no-marker case. -/
theorem c6_usage_only_filter_witness :
    (get_help_lines "A\nB\nusage: x\nC\nD".data 0 true =
      ((split_nl "A\nB\nusage: x\nC\nD".data).dropWhile
          (fun l => !containsL "usage:".data (lowerL l))).map
        (pad_line (List.replicate 0 ' '))) ∧
    get_help_lines "A\nB\nusage: x\nC\nD".data 0 true =
      ["usage: x".data, "C".data, "D".data] ∧
    get_help_lines "no marker\nhere".data 4 true = [] :=
  ⟨(c6_usage_only_filter _ 0).1, by decide,
   (c6_usage_only_filter _ 4).2 (by decide)⟩

/-- C7: every line emitted by the injector is either a blank line kept unchanged
(coming from a blank source line) or a nonempty source help line with exactly the
`indent_level` space characters prepended. -/
theorem c7_indentation (text : Line) (n : Nat) (uo : Bool) (l : Line)
    (h : l ∈ get_help_lines text n uo) :
    (l = [] ∧ [] ∈ split_nl text) ∨
    ∃ src, src ∈ split_nl text ∧ src ≠ [] ∧ l = List.replicate n ' ' ++ src := by
  rw [get_help_lines] at h
  exact help_loop_shape _ _ _ l h

/-- Witness for C7 at a concrete help text with indent 2. -/
theorem c7_indentation_witness :
    "  abc".data ∈ get_help_lines "usage: x\n\nabc".data 2 false ∧
    (("  abc".data : Line) = [] ∧ [] ∈ split_nl "usage: x\n\nabc".data ∨
     ∃ src, src ∈ split_nl "usage: x\n\nabc".data ∧ src ≠ [] ∧
       ("  abc".data : Line) = List.replicate 2 ' ' ++ src) :=
  ⟨by decide, c7_indentation _ 2 false _ (by decide)⟩

/-- With a total help collaborator, the session's capture trace is exactly the
spec-side expected trace, whatever state it starts from. -/
theorem session_total_captures (n : Nat) (uo : Bool) (oracle : String → Line) :
    ∀ (cmds : List (String × Line)) (s : SessState),
      ∃ d w, cmds.foldl (session_step n uo (fun c => .ok (oracle c))) (.ok s) =
        .ok ⟨d, w, s.captures ++ capture_trace n uo oracle s.doc cmds⟩ := by
  intro cmds
  induction cmds with
  | nil =>
    intro s
    exact ⟨s.doc, s.warnings, by simp [capture_trace]⟩
  | cons cmd rest ih =>
    intro s
    obtain ⟨c, tag⟩ := cmd
    rw [List.foldl_cons]
    cases hr : (index_usage_section s.doc tag).1.1 with
    | none =>
      have hstep : session_step n uo (fun c' => .ok (oracle c')) (.ok s) (c, tag) =
          .ok ⟨s.doc, s.warnings ++ (index_usage_section s.doc tag).2, s.captures⟩ := by
        simp [session_step, hr]
      rw [hstep]
      obtain ⟨d, w, hfold⟩ :=
        ih ⟨s.doc, s.warnings ++ (index_usage_section s.doc tag).2, s.captures⟩
      refine ⟨d, w, ?_⟩
      rw [hfold]
      simp [capture_trace, hr]
    | some ia =>
      have hstep : session_step n uo (fun c' => .ok (oracle c')) (.ok s) (c, tag) =
          .ok ⟨spliced s.doc ia ((index_usage_section s.doc tag).1.2.getD 0)
                 (get_help_lines (oracle c) n uo),
               s.warnings ++ (index_usage_section s.doc tag).2,
               s.captures ++ [c]⟩ := by
        simp [session_step, hr]
      rw [hstep]
      obtain ⟨d, w, hfold⟩ :=
        ih ⟨spliced s.doc ia ((index_usage_section s.doc tag).1.2.getD 0)
              (get_help_lines (oracle c) n uo),
            s.warnings ++ (index_usage_section s.doc tag).2,
            s.captures ++ [c]⟩
      refine ⟨d, w, ?_⟩
      rw [hfold]
      simp [capture_trace, hr, List.append_assoc]

/-- C8: with a total help collaborator, help capture is invoked exactly once per
command whose section is confirmed resolvable at its point in the run, in order,
and never for a command whose resolution is unresolved. -/
theorem c8_capture_policy (n : Nat) (uo : Bool) (oracle : String → Line) (doc : Doc)
    (cmds : List (String × Line)) :
    ∃ d w, session_run n uo (fun c => .ok (oracle c)) doc cmds =
      .ok ⟨d, w, capture_trace n uo oracle doc cmds⟩ := by
  obtain ⟨d, w, h⟩ := session_total_captures n uo oracle cmds ⟨doc, [], []⟩
  refine ⟨d, w, ?_⟩
  rw [session_run]
  simpa using h

theorem session_fold_error (n : Nat) (uo : Bool) (help : String → Except String Line) :
    ∀ (l : List (String × Line)) (e : String),
      l.foldl (session_step n uo help) (.error e) = .error e
  | [], _ => rfl
  | c :: l, e => by
    rw [List.foldl_cons]
    exact session_fold_error n uo help l e

/-- C9: if resolution succeeds for a command but help capture fails, the failure
propagates out of the session: the whole run aborts with that error, no output
file is written, and no later command in the sequence is processed. -/
theorem c9_capture_failure_aborts (n : Nat) (uo : Bool)
    (help : String → Except String Line) (doc : Doc)
    (pre : List (String × Line)) (c : String × Line) (post : List (String × Line))
    (s : SessState) (e : String)
    (h1 : session_run n uo help doc pre = .ok s)
    (h2 : ((index_usage_section s.doc c.2).1.1).isSome = true)
    (h3 : help c.1 = .error e) :
    session_run n uo help doc (pre ++ c :: post) = .error e ∧
    main_output n uo help doc (pre ++ c :: post) = .error e := by
  obtain ⟨ia, hia⟩ := Option.isSome_iff_exists.mp h2
  have hrun : session_run n uo help doc (pre ++ c :: post) = .error e := by
    rw [session_run, List.foldl_append]
    rw [session_run] at h1
    rw [h1, List.foldl_cons]
    have hstep : session_step n uo help (.ok s) c = .error e := by
      simp [session_step, hia, h3]
    rw [hstep]
    exact session_fold_error n uo help post e
  exact ⟨hrun, by simp [main_output, hrun]⟩

/-- Witness for C9: a resolvable document, a failing capture, and one later command
that is never processed. -/
theorem c9_capture_failure_aborts_witness :
    session_run 0 false (fun _ => .error "boom")
        ["```".data, "usage: foo".data, "```".data] [] =
      .ok ⟨["```".data, "usage: foo".data, "```".data], [], []⟩ ∧
    ((index_usage_section
        ((⟨["```".data, "usage: foo".data, "```".data], [], []⟩ : SessState)).doc
        ("foo", "usage: foo".data).2).1.1).isSome = true ∧
    (fun _ : String => (.error "boom" : Except String Line)) ("foo", "usage: foo".data).1 =
      .error "boom" ∧
    (session_run 0 false (fun _ => .error "boom")
        ["```".data, "usage: foo".data, "```".data]
        ([] ++ ("foo", "usage: foo".data) :: [("bar", "usage: bar".data)]) =
      .error "boom" ∧
     main_output 0 false (fun _ => .error "boom")
        ["```".data, "usage: foo".data, "```".data]
        ([] ++ ("foo", "usage: foo".data) :: [("bar", "usage: bar".data)]) =
      .error "boom") :=
  ⟨rfl, by decide, rfl,
   c9_capture_failure_aborts 0 false (fun _ => .error "boom")
     ["```".data, "usage: foo".data, "```".data] []
     ("foo", "usage: foo".data) [("bar", "usage: bar".data)]
     ⟨["```".data, "usage: foo".data, "```".data], [], []⟩ "boom"
     rfl (by decide) rfl⟩

/-- C4 counterexample: splicing twice with identical captured help text is not
idempotent as universally claimed; it fails when the captured text itself contains
a fence-marker line (here the captured help text is two lines: the usage line and a
bare triple-backtick line). -/
theorem c4_idempotence_counterexample :
    apply_usage_pass
        (apply_usage_pass ["```".data, "usage: foo".data, "```".data] "usage: foo".data
          (get_help_lines "usage: foo\n```".data 0 false))
        "usage: foo".data (get_help_lines "usage: foo\n```".data 0 false) ≠
      apply_usage_pass ["```".data, "usage: foo".data, "```".data] "usage: foo".data
        (get_help_lines "usage: foo\n```".data 0 false) := by
  decide

/-- C4 amended: for a document resolvable for a command, if no injected help line is
itself a fence-marker line, applying the splice twice with identical captured help
text yields the same document as one pass, so the second pass's line-by-line
comparison reports no change. -/
theorem c4_splice_idempotent (doc : Doc) (tag : Line) (hl : List Line) (ia ib : Nat)
    (hres : (index_usage_section doc tag).1 = (some ia, some ib))
    (hfence : ∀ l ∈ hl, is_tbt_marker l = false) :
    apply_usage_pass (apply_usage_pass doc tag hl) tag hl =
      apply_usage_pass doc tag hl := by
  obtain ⟨u, hU, hiaF, hibF, hiau, huib, hmax, hmin⟩ := resolved_props doc tag ia ib hres
  have hialen : ia < doc.length := fence_lt_length doc ia hiaF
  have hiblen : ib < doc.length := fence_lt_length doc ib hibF
  have happ1 : apply_usage_pass doc tag hl = spliced doc ia ib hl := by
    simp [apply_usage_pass, hres]
  rw [happ1]
  set d := spliced doc ia ib hl with hd
  have hlen : d.length = (ia + 1) + hl.length + (doc.length - ib) :=
    spliced_length doc ia ib hl hialen
  have hmarker_ia : is_tbt_marker (doc.getD ia []) = true :=
    ((mem_fence_indices doc ia).mp hiaF).2
  have hmarker_ib : is_tbt_marker (doc.getD ib []) = true :=
    ((mem_fence_indices doc ib).mp hibF).2
  have hiaF' : ia ∈ fence_indices d := by
    rw [mem_fence_indices]
    refine ⟨by omega, ?_⟩
    rw [hd, spliced_getD_low doc ia ib hl ia hialen (le_refl ia)]
    exact hmarker_ia
  have hibF' : (ia + 1 + hl.length) ∈ fence_indices d := by
    rw [mem_fence_indices]
    refine ⟨by omega, ?_⟩
    have h0 := spliced_getD_high doc ia ib hl 0 hialen
    rw [Nat.add_zero] at h0
    rw [hd, h0]
    exact hmarker_ib
  have hmid_nofence : ∀ f, ia < f → f < ia + 1 + hl.length → f ∉ fence_indices d := by
    intro f hf1 hf2 hfF
    have hj : f - (ia + 1) < hl.length := by omega
    have hgd : d.getD f [] = hl.getD (f - (ia + 1)) [] := by
      have hm := spliced_getD_mid doc ia ib hl (f - (ia + 1)) hialen hj
      have hidx : ia + 1 + (f - (ia + 1)) = f := by omega
      rw [hidx] at hm
      rw [hd, hm]
    have hmem : hl.getD (f - (ia + 1)) [] ∈ hl := by
      rw [List.getD_eq_getElem?_getD, List.getElem?_eq_getElem hj, Option.getD_some]
      exact List.getElem_mem hj
    have hmk := ((mem_fence_indices d f).mp hfF).2
    rw [hgd, hfence _ hmem] at hmk
    exact absurd hmk (by simp)
  rcases hU' : usage_indices tag d with _ | ⟨u', _ | ⟨v, rest⟩⟩
  · simp [apply_usage_pass, index_usage_section, hU']
  · have hu'mem : u' ∈ usage_indices tag d := by
      rw [hU']
      exact List.mem_cons_self u' []
    obtain ⟨hu'len, hu'hit⟩ := (mem_usage_indices tag d u').mp hu'mem
    have hu'lt : u' < ia + 1 + hl.length := by
      by_contra hge
      push_neg at hge
      have hk : ib + (u' - (ia + 1 + hl.length)) < doc.length := by omega
      have hgd : d.getD u' [] = doc.getD (ib + (u' - (ia + 1 + hl.length))) [] := by
        have hh := spliced_getD_high doc ia ib hl (u' - (ia + 1 + hl.length)) hialen
        have hidx : ia + 1 + hl.length + (u' - (ia + 1 + hl.length)) = u' := by omega
        rw [hidx] at hh
        rw [hd, hh]
      have hmemdoc : ib + (u' - (ia + 1 + hl.length)) ∈ usage_indices tag doc := by
        rw [mem_usage_indices]
        exact ⟨hk, by rw [← hgd]; exact hu'hit⟩
      rw [hU] at hmemdoc
      have := List.mem_singleton.mp hmemdoc
      omega
    have hu'ge : ia ≤ u' := by
      by_contra hlt
      push_neg at hlt
      have hgd : d.getD u' [] = doc.getD u' [] := by
        rw [hd, spliced_getD_low doc ia ib hl u' hialen (by omega)]
      have hmemdoc : u' ∈ usage_indices tag doc := by
        rw [mem_usage_indices]
        exact ⟨by omega, by rw [← hgd]; exact hu'hit⟩
      rw [hU] at hmemdoc
      have := List.mem_singleton.mp hmemdoc
      omega
    have hmax' : ∀ f ∈ fence_indices d, f ≤ u' → f ≤ ia := by
      intro f hf hfu
      by_contra hgt
      push_neg at hgt
      exact hmid_nofence f hgt (by omega) hf
    have hmin' : ∀ f ∈ fence_indices d, u' < f → ia + 1 + hl.length ≤ f := by
      intro f hf hfu
      by_contra hlt2
      push_neg at hlt2
      exact hmid_nofence f (by omega) hlt2 hf
    have hscan : scan_tbt (fence_indices d) u' =
        ((ia : Int), ((ia + 1 + hl.length : Nat) : Int)) :=
      scan_tbt_eq_of (fence_indices d) u' ia (ia + 1 + hl.length)
        (fence_indices_sorted d) hiaF' (by omega) hmax' hibF' (by omega) hmin'
    have hge2 : ¬(((ia : Nat) : Int) < 0 ∨ (((ia + 1 + hl.length : Nat)) : Int) < 0) := by
      omega
    have hidx : (index_usage_section d tag).1 = (some ia, some (ia + 1 + hl.length)) := by
      simp only [index_usage_section, hU', hscan]
      rw [if_neg hge2]
      simp only [Int.toNat_natCast]
    have happ2 : apply_usage_pass d tag hl = spliced d ia (ia + 1 + hl.length) hl := by
      simp only [apply_usage_pass, hidx, Option.getD_some]
    rw [happ2, spliced, hd, spliced_take doc ia ib hl hialen,
      spliced_drop doc ia ib hl hialen]
    rfl
  · simp [apply_usage_pass, index_usage_section, hU']

/-- Witness for the amended C4 at a concrete document and fence-free help line. -/
theorem c4_splice_idempotent_witness :
    (index_usage_section ["```".data, "usage: foo".data, "```".data]
        "usage: foo".data).1 = (some 0, some 2) ∧
    (∀ l ∈ ([("usage: foo [-h]".data : Line)] : List Line), is_tbt_marker l = false) ∧
    apply_usage_pass
        (apply_usage_pass ["```".data, "usage: foo".data, "```".data] "usage: foo".data
          ["usage: foo [-h]".data])
        "usage: foo".data ["usage: foo [-h]".data] =
      apply_usage_pass ["```".data, "usage: foo".data, "```".data] "usage: foo".data
        ["usage: foo [-h]".data] :=
  ⟨by decide, by decide,
   c4_splice_idempotent _ _ _ 0 2 (by decide) (by decide)⟩

end Sausage
